import Mathlib

/-!
Verification of the k-fold relation-extraction training and ensemble
inference scripts (`train_kfold_basic.py`, `train.py`, `inference_kfold.py`).

The development shallowly embeds the control-flow layer of the scripts:
the KLUE micro-F1 metric, the per-fold best-checkpoint trackers, the
append-only report log, the run-configuration file handshake between
training and inference, the batch-wise inference loop and the k-fold
logit-averaging ensemble.  Machine floats are modelled as exact rationals
(`ℚ`) where the computations are field arithmetic, and as reals (`ℝ`)
where `softmax` needs the exponential.
-/

namespace KlueRE

/-! ### Label codec and the KLUE micro-F1 metric
Embeds `klue_re_micro_f1` from `train_kfold_basic.py` (lines 31-47); the
identical copy lives in `train.py` (lines 22-38). -/

/-- The fixed 30-label enumeration hard-coded in `klue_re_micro_f1`,
with `no_relation` first. -/
def label_list : List String :=
  ["no_relation", "org:top_members/employees", "org:members",
   "org:product", "per:title", "org:alternate_names",
   "per:employee_of", "org:place_of_headquarters", "per:product",
   "org:number_of_employees/members", "per:children",
   "per:place_of_residence", "per:alternate_names",
   "per:other_family", "per:colleagues", "per:origin", "per:siblings",
   "per:spouse", "org:founded", "org:political/religious_affiliation",
   "org:member_of", "per:parents", "org:dissolved",
   "per:schools_attended", "per:date_of_death", "per:date_of_birth",
   "per:place_of_birth", "per:place_of_death", "org:founded_by",
   "per:religion"]

/-- Source line `no_relation_label_idx = label_list.index("no_relation")`. -/
def no_relation_label_idx : ℕ := label_list.indexOf "no_relation"

/-- Source lines `label_indices = list(range(len(label_list)))` followed by
`label_indices.remove(no_relation_label_idx)`. -/
def label_indices : List ℕ :=
  (List.range label_list.length).erase no_relation_label_idx

/-- An evaluated example is a (predicted class, gold label) pair, the
pointwise zip of the `preds` and `labels` arrays. -/
abbrev PredPair := ℕ × ℕ

/-- Pooled true positives of `sklearn.metrics.f1_score(average="micro",
labels=L)`: pairs predicted correctly inside the admitted class set `L`. -/
def pooledTP (L : List ℕ) (ps : List PredPair) : ℕ :=
  ps.countP (fun pl => decide (pl.1 = pl.2 ∧ pl.1 ∈ L))

/-- Pooled false positives: predictions inside `L` that miss the label. -/
def pooledFP (L : List ℕ) (ps : List PredPair) : ℕ :=
  ps.countP (fun pl => decide (pl.1 ∈ L ∧ pl.1 ≠ pl.2))

/-- Pooled false negatives: labels inside `L` the prediction misses. -/
def pooledFN (L : List ℕ) (ps : List PredPair) : ℕ :=
  ps.countP (fun pl => decide (pl.2 ∈ L ∧ pl.1 ≠ pl.2))

/-- Micro-averaged F1 restricted to the class set `L`, as
`sklearn.metrics.f1_score(average="micro", labels=L)` computes it:
micro precision and recall from the pooled counts, then their harmonic
mean, each division returning 0 on a zero denominator (sklearn's
zero-division convention; `ℚ` division by zero is 0). -/
def sklearnMicroF1 (L : List ℕ) (ps : List PredPair) : ℚ :=
  let tp : ℚ := pooledTP L ps
  let fp : ℚ := pooledFP L ps
  let fn : ℚ := pooledFN L ps
  let precisionMicro := tp / (tp + fp)
  let recallMicro := tp / (tp + fn)
  2 * precisionMicro * recallMicro / (precisionMicro + recallMicro)

/-- Embedding of `klue_re_micro_f1(preds, labels)`: micro F1 over
`label_indices` (all classes except `no_relation`), times 100. -/
def klue_re_micro_f1 (ps : List PredPair) : ℚ :=
  sklearnMicroF1 label_indices ps * 100

/-- The 29 relation classes other than `no_relation` (index 0), the class
pool named by the specification. -/
def nonRelationClasses : Finset ℕ := Finset.Icc 1 29

/-- Spec-side pooled true positives over the 29 non-`no_relation` classes. -/
def specTP (ps : List PredPair) : ℕ :=
  ps.countP (fun pl => decide (pl.1 = pl.2 ∧ pl.1 ∈ nonRelationClasses))

/-- Spec-side pooled false positives over the 29 non-`no_relation` classes. -/
def specFP (ps : List PredPair) : ℕ :=
  ps.countP (fun pl => decide (pl.1 ∈ nonRelationClasses ∧ pl.1 ≠ pl.2))

/-- Spec-side pooled false negatives over the 29 non-`no_relation` classes. -/
def specFN (ps : List PredPair) : ℕ :=
  ps.countP (fun pl => decide (pl.2 ∈ nonRelationClasses ∧ pl.1 ≠ pl.2))

theorem label_list_length : label_list.length = 30 := by rfl

theorem no_relation_label_idx_eq : no_relation_label_idx = 0 := by rfl

theorem label_indices_eq : label_indices = (List.range 30).erase 0 := by rfl

theorem mem_label_indices (x : ℕ) :
    x ∈ label_indices ↔ x ∈ nonRelationClasses := by
  rw [label_indices_eq]
  rw [(List.nodup_range 30).mem_erase_iff]
  simp only [List.mem_range, nonRelationClasses, Finset.mem_Icc]
  omega

theorem specTP_eq (ps : List PredPair) : specTP ps = pooledTP label_indices ps := by
  unfold specTP pooledTP
  apply List.countP_congr
  intro pl _
  simp [mem_label_indices]

theorem specFP_eq (ps : List PredPair) : specFP ps = pooledFP label_indices ps := by
  unfold specFP pooledFP
  apply List.countP_congr
  intro pl _
  simp [mem_label_indices]

theorem specFN_eq (ps : List PredPair) : specFN ps = pooledFN label_indices ps := by
  unfold specFN pooledFN
  apply List.countP_congr
  intro pl _
  simp [mem_label_indices]

/-- Harmonic-mean micro F1 collapses to the pooled-count formula
`2·TP / (2·TP + FP + FN)` under the division-by-zero-is-zero convention. -/
theorem sklearnMicroF1_eq_pooled (L : List ℕ) (ps : List PredPair) :
    sklearnMicroF1 L ps =
      2 * pooledTP L ps / (2 * pooledTP L ps + pooledFP L ps + pooledFN L ps) := by
  unfold sklearnMicroF1
  set t : ℚ := (pooledTP L ps : ℚ) with ht
  set f : ℚ := (pooledFP L ps : ℚ)
  set n : ℚ := (pooledFN L ps : ℚ)
  have hf : 0 ≤ f := Nat.cast_nonneg _
  have hn : 0 ≤ n := Nat.cast_nonneg _
  rcases eq_or_lt_of_le (Nat.cast_nonneg (pooledTP L ps) : (0:ℚ) ≤ t) with h0 | hpos
  · have ht0 : t = 0 := by rw [ht, ← h0]
    simp [ht0]
  · have htf : t + f ≠ 0 := by positivity
    have htn : t + n ≠ 0 := by positivity
    have hsum : t / (t + f) + t / (t + n) ≠ 0 := by positivity
    have hden : 2 * t + f + n ≠ 0 := by positivity
    field_simp
    ring

/-- C5: for every vector of predicted classes and gold labels,
`klue_re_micro_f1` returns 100 times the micro-averaged F1 obtained by pooling
true positives, false positives and false negatives across the 29 classes
other than `no_relation` (index 0) before computing F1; `no_relation` is
outside the pooled class set, and a pair predicted and labelled `no_relation`
never contributes: prepending one leaves the score unchanged. -/
theorem claim_C5_micro_f1 (ps : List PredPair) :
    klue_re_micro_f1 ps =
      100 * (2 * specTP ps / (2 * specTP ps + specFP ps + specFN ps)) ∧
    klue_re_micro_f1 ((0, 0) :: ps) = klue_re_micro_f1 ps ∧
    (0 : ℕ) ∉ label_indices := by
  have h0 : (0 : ℕ) ∉ label_indices := by
    rw [mem_label_indices]
    simp [nonRelationClasses]
  refine ⟨?_, ?_, h0⟩
  · rw [klue_re_micro_f1, sklearnMicroF1_eq_pooled, specTP_eq, specFP_eq, specFN_eq]
    ring
  · unfold klue_re_micro_f1 sklearnMicroF1 pooledTP pooledFP pooledFN
    simp [List.countP_cons, h0]

/-! ### Per-fold evaluation checkpoints, best trackers and the report log
Embeds the evaluation-checkpoint block of `train_kfold_basic.py`
(lines 294-351): tracker initialization (253-255), report writing
(243-244 and 330-334), and best-checkpoint persistence (341-351). -/

/-- The data one evaluation checkpoint produces: the aggregated eval loss
and micro-F1 compared against the trackers, the optimizer-step counter
value, and the confusion-matrix / classification-report strings written to
the report log. -/
structure EvalMetrics where
  loss : ℚ
  f1 : ℚ
  step : ℕ
  cf : String
  cr : String
deriving DecidableEq

/-- The fold's best-so-far trackers. -/
structure BestState where
  bestLoss : ℚ
  bestF1 : ℚ
deriving DecidableEq

/-- Tracker initialization at the top of each fold (lines 253-254):
`best_eval_loss = 1e9`, `best_eval_f1 = 0`. -/
def initBest : BestState := ⟨10 ^ 9, 0⟩

/-- One evaluation checkpoint (lines 341-351): persist `best_loss` exactly
when the aggregated eval loss is strictly below the tracker, and `best_f1`
exactly when the aggregated eval F1 is strictly above; each persist also
updates its tracker.  Returns `((persistedLoss, persistedF1), new state)`. -/
def evalUpdate (s : BestState) (e : EvalMetrics) : (Bool × Bool) × BestState :=
  let s1 := if e.loss < s.bestLoss then { s with bestLoss := e.loss } else s
  let s2 := if s1.bestF1 < e.f1 then { s1 with bestF1 := e.f1 } else s1
  ((decide (e.loss < s.bestLoss), decide (s.bestF1 < e.f1)), s2)

/-- Run a fold's evaluation checkpoints in order starting from trackers `s`,
collecting the two persist flags of every checkpoint. -/
def runEvalsFrom (s : BestState) : List EvalMetrics → List (Bool × Bool) × BestState
  | [] => ([], s)
  | e :: es =>
    let step := evalUpdate s e
    let rest := runEvalsFrom step.2 es
    (step.1 :: rest.1, rest.2)

/-- A fold's whole evaluation history, from the freshly initialized trackers. -/
def runEvals (evals : List EvalMetrics) : List (Bool × Bool) × BestState :=
  runEvalsFrom initBest evals

/-- Whether the fold persisted a `best_loss` checkpoint at least once
(so the `best_loss` subdirectory exists after the fold). -/
def foldSavedLoss (evals : List EvalMetrics) : Bool :=
  (runEvals evals).1.any Prod.fst

/-- Whether the fold persisted a `best_f1` checkpoint at least once
(so the `best_f1` subdirectory exists after the fold). -/
def foldSavedF1 (evals : List EvalMetrics) : Bool :=
  (runEvals evals).1.any Prod.snd

theorem evalUpdate_snd (s : BestState) (e : EvalMetrics) :
    (evalUpdate s e).2 = ⟨min s.bestLoss e.loss, max s.bestF1 e.f1⟩ := by
  unfold evalUpdate
  dsimp only
  rcases lt_or_le e.loss s.bestLoss with h | h
  · rcases lt_or_le s.bestF1 e.f1 with h' | h'
    · simp [h, h', min_eq_right (le_of_lt h), max_eq_right (le_of_lt h')]
    · simp [h, not_lt.mpr h', min_eq_right (le_of_lt h), max_eq_left h']
  · rcases lt_or_le s.bestF1 e.f1 with h' | h'
    · simp [not_lt.mpr h, h', min_eq_left h, max_eq_right (le_of_lt h')]
    · simp [not_lt.mpr h, not_lt.mpr h', min_eq_left h, max_eq_left h']

theorem evalUpdate_fst (s : BestState) (e : EvalMetrics) :
    (evalUpdate s e).1 = (decide (e.loss < s.bestLoss), decide (s.bestF1 < e.f1)) := rfl

theorem runEvalsFrom_state (es : List EvalMetrics) : ∀ s : BestState,
    (runEvalsFrom s es).2 =
      ⟨(es.map EvalMetrics.loss).foldl min s.bestLoss,
       (es.map EvalMetrics.f1).foldl max s.bestF1⟩ := by
  induction es with
  | nil => intro s; rfl
  | cons e tl ih =>
    intro s
    show (runEvalsFrom (evalUpdate s e).2 tl).2 = _
    rw [ih, evalUpdate_snd]
    rfl

theorem runEvalsFrom_flags (es : List EvalMetrics) : ∀ (s : BestState)
    (i : ℕ) (hi : i < es.length),
    (runEvalsFrom s es).1.get? i =
      some ((evalUpdate (runEvalsFrom s (es.take i)).2 (es.get ⟨i, hi⟩)).1) := by
  induction es with
  | nil => intro s i hi; simp at hi
  | cons e tl ih =>
    intro s i hi
    match i with
    | 0 => rfl
    | Nat.succ j =>
      have hj : j < tl.length := Nat.lt_of_succ_lt_succ hi
      have := ih (evalUpdate s e).2 j hj
      simpa [runEvalsFrom] using this

theorem runEvalsFrom_anyLoss (es : List EvalMetrics) : ∀ s : BestState,
    ((runEvalsFrom s es).1.any Prod.fst = true ↔ ∃ e ∈ es, e.loss < s.bestLoss) := by
  induction es with
  | nil => intro s; simp [runEvalsFrom]
  | cons e tl ih =>
    intro s
    have hrec := ih (evalUpdate s e).2
    simp only [runEvalsFrom, List.any_cons, Bool.or_eq_true, List.mem_cons]
    rcases lt_or_le e.loss s.bestLoss with h | h
    · constructor
      · intro _; exact ⟨e, Or.inl rfl, h⟩
      · intro _; left; simp [evalUpdate, h]
    · have hbl : ((evalUpdate s e).2).bestLoss = s.bestLoss := by
        rw [evalUpdate_snd]
        exact min_eq_left h
      rw [hbl] at hrec
      constructor
      · rintro (hfl | hr)
        · exfalso
          have hd : (decide (e.loss < s.bestLoss)) = true := hfl
          simp [not_lt.mpr h] at hd
        · obtain ⟨x, hx, hlt⟩ := hrec.mp hr
          exact ⟨x, Or.inr hx, hlt⟩
      · rintro ⟨x, rfl | hx, hlt⟩
        · exact absurd hlt (not_lt.mpr h)
        · right; exact hrec.mpr ⟨x, hx, hlt⟩

theorem runEvalsFrom_anyF1 (es : List EvalMetrics) : ∀ s : BestState,
    ((runEvalsFrom s es).1.any Prod.snd = true ↔ ∃ e ∈ es, s.bestF1 < e.f1) := by
  induction es with
  | nil => intro s; simp [runEvalsFrom]
  | cons e tl ih =>
    intro s
    have hrec := ih (evalUpdate s e).2
    simp only [runEvalsFrom, List.any_cons, Bool.or_eq_true, List.mem_cons]
    rcases lt_or_le s.bestF1 e.f1 with h | h
    · constructor
      · intro _; exact ⟨e, Or.inl rfl, h⟩
      · intro _; left; simp [evalUpdate, h]
    · have hbf : ((evalUpdate s e).2).bestF1 = s.bestF1 := by
        rw [evalUpdate_snd]
        exact max_eq_left h
      rw [hbf] at hrec
      constructor
      · rintro (hfl | hr)
        · exfalso
          have hd : (decide (s.bestF1 < e.f1)) = true := hfl
          simp [not_lt.mpr h] at hd
        · obtain ⟨x, hx, hlt⟩ := hrec.mp hr
          exact ⟨x, Or.inr hx, hlt⟩
      · rintro ⟨x, rfl | hx, hlt⟩
        · exact absurd hlt (not_lt.mpr h)
        · right; exact hrec.mpr ⟨x, hx, hlt⟩

/-! ### The per-fold report file -/

/-- A run of `n` hash marks, Python's `"#" * n`. -/
def hashes (n : ℕ) : String := String.mk (List.replicate n '#')

/-- The text one evaluation checkpoint writes to the fold's report log
(lines 331-334): a hash-mark header carrying the optimizer-step counter,
the textual confusion matrix, the classification report, and a newline. -/
def reportEntry (e : EvalMetrics) : String :=
  hashes 10 ++ "  " ++ toString e.step ++ "  " ++ hashes 100 ++ "\n"
    ++ e.cf ++ e.cr ++ "\n"

/-- Report-file operations: the fold-setup `open(..., 'w'); close()`
(lines 243-244) creates/empties the file; every checkpoint appends. -/
inductive FileOp where
  | create : FileOp
  | append : String → FileOp
deriving DecidableEq

/-- Effect of one operation on the file's content. -/
def applyOp (content : String) : FileOp → String
  | .create => ""
  | .append s => content ++ s

/-- Replay a list of file operations on an initially absent/empty file. -/
def runOps (ops : List FileOp) : String := ops.foldl applyOp ""

/-- The sequence of report-file operations one fold performs: the setup
create, then one append per evaluation checkpoint, in checkpoint order. -/
def foldReportOps (evals : List EvalMetrics) : List FileOp :=
  .create :: evals.map (fun e => .append (reportEntry e))

/-- The fold's report-file content once the fold ends. -/
def foldReportContent (evals : List EvalMetrics) : String :=
  runOps (foldReportOps evals)

theorem join_cons (x : String) (tl : List String) :
    String.join (x :: tl) = x ++ String.join tl := by
  apply String.ext
  simp

theorem foldl_applyOp_append (ss : List String) : ∀ c : String,
    (ss.map FileOp.append).foldl applyOp c = c ++ String.join ss := by
  induction ss with
  | nil =>
    intro c
    show c = c ++ String.join []
    apply String.ext
    simp
  | cons x tl ih =>
    intro c
    simp only [List.map_cons, List.foldl_cons, applyOp]
    rw [ih (c ++ x), join_cons, String.append_assoc]

theorem foldReportContent_eq (evals : List EvalMetrics) :
    foldReportContent evals = String.join (evals.map reportEntry) := by
  unfold foldReportContent foldReportOps runOps
  simp only [List.foldl_cons, applyOp]
  rw [show (fun e => FileOp.append (reportEntry e)) = (FileOp.append ∘ reportEntry) from rfl,
    ← List.map_map]
  exact foldl_applyOp_append _ ""

theorem length_hashes (n : ℕ) : (hashes n).length = n := by
  simp [hashes, String.length]

theorem reportEntry_ne_empty (e : EvalMetrics) : reportEntry e ≠ "" := by
  intro h
  have := congrArg String.length h
  simp [reportEntry, String.length_append, length_hashes] at this

theorem join_length (ss : List String) :
    (String.join ss).length = (ss.map String.length).sum := by
  induction ss with
  | nil => rfl
  | cons x tl ih => rw [join_cons, String.length_append, ih, List.map_cons, List.sum_cons]

theorem join_append (l1 l2 : List String) :
    String.join (l1 ++ l2) = String.join l1 ++ String.join l2 := by
  apply String.ext
  simp

/-- Content written earlier in a fold is still present after later
operations: the replayed content at any cut of the fold's operation list
is left unextended, never rewritten. -/
theorem runOps_monotone (evals : List EvalMetrics) (n : ℕ) :
    ∃ t, foldReportContent evals = runOps ((foldReportOps evals).take n) ++ t := by
  match n with
  | 0 =>
    refine ⟨foldReportContent evals, ?_⟩
    apply String.ext
    simp [runOps]
  | Nat.succ m =>
    refine ⟨String.join ((evals.map reportEntry).drop m), ?_⟩
    rw [foldReportContent_eq]
    unfold foldReportOps runOps
    rw [List.take_succ_cons, List.foldl_cons]
    show _ = ((evals.map (fun e => FileOp.append (reportEntry e))).take m).foldl applyOp "" ++ _
    rw [show (fun e => FileOp.append (reportEntry e)) = (FileOp.append ∘ reportEntry) from rfl,
      ← List.map_map, ← List.map_take, foldl_applyOp_append]
    have hsplit : evals.map reportEntry =
        (evals.map reportEntry).take m ++ (evals.map reportEntry).drop m :=
      (List.take_append_drop m _).symm
    calc String.join (evals.map reportEntry)
        = String.join ((evals.map reportEntry).take m ++ (evals.map reportEntry).drop m) := by
          rw [← hsplit]
      _ = String.join ((evals.map reportEntry).take m)
            ++ String.join ((evals.map reportEntry).drop m) := join_append _ _
      _ = "" ++ String.join ((evals.map reportEntry).take m)
            ++ String.join ((evals.map reportEntry).drop m) := by
          apply String.ext
          simp

/-- C4: for every fold and every evaluation checkpoint, the checkpoint's
confusion-matrix-and-classification-report text is appended to that fold's
report log — the fold's operation sequence is the setup create followed by
exactly one append per checkpoint in order, the final content is the
concatenation of all checkpoint reports, every appended report is present
in the final content, and no later operation truncates what an earlier cut
of the run had written. -/
theorem claim_C4_report_append_only (evals : List EvalMetrics) :
    foldReportOps evals
        = FileOp.create :: evals.map (fun e => FileOp.append (reportEntry e)) ∧
    foldReportContent evals = String.join (evals.map reportEntry) ∧
    (∀ e ∈ evals, ∃ pre post,
      foldReportContent evals = pre ++ (reportEntry e ++ post)) ∧
    (∀ n, ∃ t, foldReportContent evals = runOps ((foldReportOps evals).take n) ++ t) := by
  refine ⟨rfl, foldReportContent_eq evals, ?_, runOps_monotone evals⟩
  intro e he
  obtain ⟨l1, l2, rfl⟩ := List.append_of_mem he
  refine ⟨String.join (l1.map reportEntry), String.join (l2.map reportEntry), ?_⟩
  rw [foldReportContent_eq]
  rw [List.map_append, List.map_cons, join_append, join_cons]

/-- Closed instance of the C4 theorem at a one-checkpoint fold. -/
theorem claim_C4_report_append_only_witness :
    ∃ pre post,
      foldReportContent [⟨5, 3, 1, "cfx", "crx"⟩]
        = pre ++ (reportEntry ⟨5, 3, 1, "cfx", "crx"⟩ ++ post) :=
  (claim_C4_report_append_only [⟨5, 3, 1, "cfx", "crx"⟩]).2.2.1 _ (by simp)

/-- C6 (amended): at every evaluation checkpoint the `best_loss` checkpoint
is persisted exactly when the aggregated eval loss is strictly below the
tracker and `best_f1` exactly when the aggregated eval F1 is strictly above;
after each checkpoint the trackers hold the minimum of the 10⁹
initialization and all losses so far, and the maximum of the 0
initialization and all F1 values so far (not the bare minimum/maximum over
the evaluations: the initializations take part). -/
theorem claim_C6_best_trackers (evals : List EvalMetrics) (i : ℕ)
    (e : EvalMetrics) (he : evals.get? i = some e) :
    (runEvals evals).1.get? i =
      some (decide (e.loss < (runEvals (evals.take i)).2.bestLoss),
            decide ((runEvals (evals.take i)).2.bestF1 < e.f1)) ∧
    (runEvals (evals.take (i + 1))).2.bestLoss
        = ((evals.take (i + 1)).map EvalMetrics.loss).foldl min (10 ^ 9) ∧
    (runEvals (evals.take (i + 1))).2.bestF1
        = ((evals.take (i + 1)).map EvalMetrics.f1).foldl max 0 := by
  obtain ⟨hi, rfl⟩ := List.get?_eq_some.mp he
  refine ⟨?_, ?_, ?_⟩
  · rw [runEvals, runEvalsFrom_flags evals initBest i hi, evalUpdate_fst]
    rfl
  · rw [runEvals, runEvalsFrom_state]
    rfl
  · rw [runEvals, runEvalsFrom_state]
    rfl

/-- Concrete eval-checkpoint data used by closed witness instances. -/
def wEval : EvalMetrics := ⟨5, 3, 1, "cfw", "crw"⟩

/-- Closed instance of the C6 theorem at a fold with one checkpoint. -/
theorem claim_C6_best_trackers_witness :
    ([wEval] : List EvalMetrics).get? 0 = some wEval ∧
    ((runEvals [wEval]).1.get? 0 =
      some (decide (wEval.loss < (runEvals (([wEval] : List EvalMetrics).take 0)).2.bestLoss),
            decide ((runEvals (([wEval] : List EvalMetrics).take 0)).2.bestF1 < wEval.f1)) ∧
    (runEvals (([wEval] : List EvalMetrics).take (0 + 1))).2.bestLoss
        = ((([wEval] : List EvalMetrics).take (0 + 1)).map EvalMetrics.loss).foldl min (10 ^ 9) ∧
    (runEvals (([wEval] : List EvalMetrics).take (0 + 1))).2.bestF1
        = ((([wEval] : List EvalMetrics).take (0 + 1)).map EvalMetrics.f1).foldl max 0) :=
  ⟨rfl, claim_C6_best_trackers [wEval] 0 wEval rfl⟩

/-- C6 counterexample: in a fold whose single evaluation has aggregated loss
2·10⁹, the post-checkpoint loss tracker still holds its 10⁹ initialization,
while the minimum loss over all of that fold's evaluations so far is the
single loss 2·10⁹ — so the tracker does not equal that minimum. -/
theorem claim_C6_counterexample :
    (runEvals [⟨2 * 10 ^ 9, 0, 1, "", ""⟩]).2.bestLoss = 10 ^ 9 ∧
    (([⟨2 * 10 ^ 9, 0, 1, "", ""⟩] : List EvalMetrics).map EvalMetrics.loss)
        = [2 * 10 ^ 9] ∧
    ((10 : ℚ) ^ 9) ≠ 2 * 10 ^ 9 := by
  refine ⟨?_, rfl, by norm_num⟩
  show (runEvalsFrom initBest _).2.bestLoss = 10 ^ 9
  rw [runEvalsFrom_state]
  show min ((10 : ℚ) ^ 9) (2 * 10 ^ 9) = 10 ^ 9
  rw [min_eq_left (by norm_num)]

/-- C7 (amended): after a complete k-fold run in which at least one
evaluation checkpoint fires per fold, every fold directory has a non-empty
report file; it contains a `best_loss` checkpoint iff some evaluation's
aggregated loss beat the 10⁹ tracker initialization, and a `best_f1`
checkpoint iff some evaluation's aggregated F1 was strictly positive (in
particular `best_f1` is absent when every evaluation's F1 is 0). -/
theorem claim_C7_fold_artifacts (folds : List (List EvalMetrics))
    (h : ∀ f ∈ folds, f ≠ []) :
    ∀ f ∈ folds,
      (foldSavedLoss f = true ↔ ∃ e ∈ f, e.loss < 10 ^ 9) ∧
      (foldSavedF1 f = true ↔ ∃ e ∈ f, 0 < e.f1) ∧
      foldReportContent f ≠ "" := by
  intro f hf
  refine ⟨runEvalsFrom_anyLoss f initBest, runEvalsFrom_anyF1 f initBest, ?_⟩
  have hne := h f hf
  rw [foldReportContent_eq]
  cases f with
  | nil => exact absurd rfl hne
  | cons e tl =>
    intro hempty
    have hlen := congrArg String.length hempty
    rw [join_length, List.map_cons, List.map_cons, List.sum_cons] at hlen
    have hE : (reportEntry e).length ≠ 0 := by
      intro h0
      apply reportEntry_ne_empty e
      cases hme : reportEntry e with
      | mk data =>
        rw [hme] at h0
        simp only [String.length_mk] at h0
        rw [List.length_eq_zero.mp h0]
    simp only [String.length_empty] at hlen
    omega

/-- Closed instance of the C7 theorem on a two-fold run, each fold with one
checkpoint of loss 5 and F1 3. -/
theorem claim_C7_fold_artifacts_witness :
    (foldSavedLoss [wEval] = true ↔ ∃ e ∈ [wEval], e.loss < 10 ^ 9) ∧
    (foldSavedF1 [wEval] = true ↔ ∃ e ∈ [wEval], 0 < e.f1) ∧
    foldReportContent [wEval] ≠ "" :=
  claim_C7_fold_artifacts [[wEval], [wEval]] (by simp) [wEval] (by simp)

/-- C7 counterexample: a fold whose single evaluation checkpoint has F1 = 0
(and loss 5) fires an evaluation, yet never persists a `best_f1` checkpoint,
because persistence requires the F1 to strictly exceed the tracker's 0
initialization — so not every fold directory contains both best
checkpoints. -/
theorem claim_C7_counterexample :
    foldSavedF1 [⟨5, 0, 1, "", ""⟩] = false ∧
    foldSavedLoss [⟨5, 0, 1, "", ""⟩] = true ∧
    ([⟨5, 0, 1, "", ""⟩] : List EvalMetrics) ≠ [] := by
  refine ⟨?_, ?_, by simp⟩
  · show ((runEvalsFrom initBest _).1.any Prod.snd) = false
    simp only [runEvalsFrom, evalUpdate, initBest, List.any_cons, List.any_nil,
      Bool.or_false]
    show (decide ((0:ℚ) < 0)) = false
    simp
  · show ((runEvalsFrom initBest _).1.any Prod.fst) = true
    simp only [runEvalsFrom, evalUpdate, initBest, List.any_cons, List.any_nil,
      Bool.or_false, decide_eq_true_eq]
    norm_num

/-! ### The run-configuration file handshake
Embeds the `model_config_parameters.json` write of `train_kfold_basic.py`
(lines 222-240) and the read in `inference_kfold.py` `main` (lines 81-84). -/

/-- A JSON value stored in `model_config_parameters.json`. -/
inductive ConfigVal where
  | str : String → ConfigVal
  | nat : ℕ → ConfigVal
  | rat : ℚ → ConfigVal
deriving DecidableEq

/-- The training flags that feed `model_config_parameters`. -/
structure TrainArgs where
  model : String
  seed : ℕ
  epochs : ℕ
  batch_size : ℕ
  token_type : String
  optimizer : String
  lr : ℚ
  val_ratio : ℚ
  sep_type : String
  kfold_splits : ℕ

/-- The `model_config_parameters` JSON object the training run writes
(lines 222-233): exactly these ten keys, in this order. -/
def model_config_parameters (a : TrainArgs) : List (String × ConfigVal) :=
  [("model", .str a.model),
   ("seed", .nat a.seed),
   ("epochs", .nat a.epochs),
   ("batch_size", .nat a.batch_size),
   ("token_type", .str a.token_type),
   ("optimizer", .str a.optimizer),
   ("lr", .rat a.lr),
   ("val_ratio", .rat a.val_ratio),
   ("sep_type", .str a.sep_type),
   ("kfold_splits", .nat a.kfold_splits)]

/-- Inference's load of the run-configuration file (lines 81-84): it reads
`token_type`, `sep_type`, `kfold_splits`, then `model_case`, `use_lstm` and
`model`.  A Python dict subscript on a missing key raises `KeyError`,
modelled as `none`. -/
def inferenceLoadConfig (mcp : List (String × ConfigVal)) :
    Option (ConfigVal × ConfigVal × ConfigVal × ConfigVal × ConfigVal × ConfigVal) := do
  let token_type ← mcp.lookup "token_type"
  let sep_type ← mcp.lookup "sep_type"
  let kfold_splits ← mcp.lookup "kfold_splits"
  let model_case ← mcp.lookup "model_case"
  let use_lstm ← mcp.lookup "use_lstm"
  let model ← mcp.lookup "model"
  pure (token_type, sep_type, kfold_splits, model_case, use_lstm, model)

/-- C1: the run-configuration file written by a training run records the
token-type scheme, separator strategy, fold count and model identifier, but
not the architecture-variant flags `model_case` and `use_lstm` that
inference also reads — so for every training run, inference's load of its
configuration keys fails (Python `KeyError` on `model_case`). -/
theorem claim_C1_config_handshake (a : TrainArgs) :
    (model_config_parameters a).lookup "token_type" = some (.str a.token_type) ∧
    (model_config_parameters a).lookup "sep_type" = some (.str a.sep_type) ∧
    (model_config_parameters a).lookup "kfold_splits" = some (.nat a.kfold_splits) ∧
    (model_config_parameters a).lookup "model" = some (.str a.model) ∧
    (model_config_parameters a).lookup "model_case" = none ∧
    (model_config_parameters a).lookup "use_lstm" = none ∧
    inferenceLoadConfig (model_config_parameters a) = none :=
  ⟨rfl, rfl, rfl, rfl, rfl, rfl, rfl⟩

/-! ### The epoch-boundary scheduler step
Embeds the first epoch of a fold in `train_kfold_basic.py`: the step counter
and evaluation trigger (lines 264 and 294), the assignment of
`eval_average_loss` inside the evaluation block (line 322), and the
epoch-boundary `scheduler.step(eval_average_loss)` for the plateau
scheduler (lines 378-381). -/

/-- The fold-local Python variables the epoch-boundary scheduler call can
see: the optimizer-step counter `total_idx`, and `eval_average_loss`, which
is `none` while no evaluation block has assigned it. -/
structure EpochState where
  total_idx : ℕ
  eval_average_loss : Option ℚ
deriving DecidableEq

/-- One training batch (lines 262-366): `total_idx` is incremented, and when
it hits a multiple of `eval_step` the evaluation block runs and assigns
`eval_average_loss`. -/
def batchStep (eval_step : ℕ) (lossOfEval : ℕ → ℚ) (s : EpochState) : EpochState :=
  let t := s.total_idx + 1
  if t % eval_step = 0 then ⟨t, some (lossOfEval t)⟩ else ⟨t, s.eval_average_loss⟩

/-- Run `n` consecutive training batches. -/
def runBatches (eval_step : ℕ) (lossOfEval : ℕ → ℚ) (s : EpochState) : ℕ → EpochState
  | 0 => s
  | n + 1 => runBatches eval_step lossOfEval (batchStep eval_step lossOfEval s) n

/-- The epoch-boundary scheduler call (lines 378-381): with the plateau
scheduler (`reduceLR`), `scheduler.step(eval_average_loss)` reads the local
`eval_average_loss`; if no evaluation has assigned it the interpreter
raises `UnboundLocalError` and the run aborts. -/
def epochEndScheduler (lr_scheduler : String) (s : EpochState) :
    Except String EpochState :=
  if lr_scheduler = "reduceLR" then
    match s.eval_average_loss with
    | none => .error "UnboundLocalError: eval_average_loss"
    | some _ => .ok s
  else .ok s

/-- A fold's first epoch: `total_idx` starts at 0 (line 255), `nb` batches
run, then the epoch-boundary scheduler step fires. -/
def runFirstEpoch (lr_scheduler : String) (eval_step nb : ℕ)
    (lossOfEval : ℕ → ℚ) : Except String EpochState :=
  epochEndScheduler lr_scheduler (runBatches eval_step lossOfEval ⟨0, none⟩ nb)

theorem runBatches_no_eval (eval_step : ℕ) (lossOfEval : ℕ → ℚ) :
    ∀ (n : ℕ) (s : EpochState), s.eval_average_loss = none →
    (∀ k, s.total_idx < k → k ≤ s.total_idx + n → ¬ k % eval_step = 0) →
    (runBatches eval_step lossOfEval s n).eval_average_loss = none := by
  intro n
  induction n with
  | zero => intro s hs _; exact hs
  | succ m ih =>
    intro s hs hk
    rw [runBatches]
    have ht : ¬ (s.total_idx + 1) % eval_step = 0 :=
      hk (s.total_idx + 1) (Nat.lt_succ_self _) (by omega)
    have hstep : batchStep eval_step lossOfEval s = ⟨s.total_idx + 1, s.eval_average_loss⟩ := by
      unfold batchStep
      rw [if_neg ht]
    rw [hstep]
    apply ih ⟨s.total_idx + 1, s.eval_average_loss⟩ hs
    intro k h1 h2
    dsimp only at h1 h2
    exact hk k (by omega) (by omega)

/-- C10: with the plateau scheduler selected, if the number of optimizer
steps in a fold's first epoch is smaller than the eval interval (the step
counter starts at 0 and an evaluation fires only at a positive multiple of
the interval), then no evaluation assigns `eval_average_loss`, and the
epoch-boundary `scheduler.step(eval_average_loss)` call aborts the run with
an unbound-local error. -/
theorem claim_C10_reduceLR_unbound (eval_step nb : ℕ) (lossOfEval : ℕ → ℚ)
    (_hpos : 0 < eval_step) (h2 : nb < eval_step) :
    runFirstEpoch "reduceLR" eval_step nb lossOfEval =
      Except.error "UnboundLocalError: eval_average_loss" := by
  unfold runFirstEpoch
  have hnone : (runBatches eval_step lossOfEval ⟨0, none⟩ nb).eval_average_loss = none := by
    apply runBatches_no_eval eval_step lossOfEval nb ⟨0, none⟩ rfl
    intro k hk1 hk2
    have hklt : k < eval_step := by
      simp only at hk2
      omega
    rw [Nat.mod_eq_of_lt hklt]
    omega
  unfold epochEndScheduler
  rw [if_pos rfl]
  rw [hnone]

/-- Closed instance of the C10 theorem: eval interval 5, a 3-batch first
epoch. -/
theorem claim_C10_reduceLR_unbound_witness :
    0 < 5 ∧ 3 < 5 ∧
    runFirstEpoch "reduceLR" 5 3 (fun _ => 0) =
      Except.error "UnboundLocalError: eval_average_loss" :=
  ⟨by decide, by decide, claim_C10_reduceLR_unbound 5 3 (fun _ => 0) (by decide) (by decide)⟩

/-! ### Fold independence in the k-fold orchestrator
Embeds the fold loop of `train` (lines 147-385): what the loop body rebuilds
at the top of every iteration. -/

/-- The mutable fold-loop state: best trackers and step counter (lines
253-255), model weights (line 172) and optimizer (lines 189-194), over
abstract weight/optimizer types. -/
structure LoopState (M O : Type) where
  bestLoss : ℚ
  bestF1 : ℚ
  total_idx : ℕ
  modelWeights : M
  optimizer : O

/-- What one fold iteration leaves behind as run artifacts: the persist
flags of its checkpoints, its final trackers, and its report-file content. -/
structure FoldResult where
  flags : List (Bool × Bool)
  finalBest : BestState
  report : String
deriving DecidableEq

/-- The body of one fold iteration.  It receives the loop state left by the
previous fold but begins by rebuilding every piece of it: the model is
loaded afresh from the pretrained identifier (line 172), the optimizer is
constructed anew on that model (lines 189-194), and the trackers and step
counter are re-initialized (lines 253-255).  `trainOutcomes` abstracts the
training framework: the evaluation metrics the fold produces from the
weights and optimizer it starts with and its data split; `foldEnd` likewise
abstracts the Python variables' values when the fold finishes. -/
def foldBody {M O D : Type} (pretrained : M) (freshOpt : M → O)
    (trainOutcomes : M → O → D → List EvalMetrics)
    (foldEnd : M → O → D → LoopState M O)
    (_prev : LoopState M O) (d : D) : FoldResult × LoopState M O :=
  let model := pretrained
  let opt := freshOpt model
  let best : BestState := ⟨10 ^ 9, 0⟩
  let evals := trainOutcomes model opt d
  let r := runEvalsFrom best evals
  (⟨r.1, r.2, foldReportContent evals⟩, foldEnd model opt d)

/-- The fold loop, threading the loop state through successive folds. -/
def runKFoldFrom {M O D : Type} (pretrained : M) (freshOpt : M → O)
    (trainOutcomes : M → O → D → List EvalMetrics)
    (foldEnd : M → O → D → LoopState M O)
    (s : LoopState M O) : List D → List FoldResult
  | [] => []
  | d :: ds =>
    let step := foldBody pretrained freshOpt trainOutcomes foldEnd s d
    step.1 :: runKFoldFrom pretrained freshOpt trainOutcomes foldEnd step.2 ds

/-- C9: every fold iteration re-initializes the best trackers and the step
counter and rebuilds the model and optimizer from the same pretrained
identifier, so the fold body's result is independent of the loop state the
previous folds left behind, and the whole run is the independent per-fold
map — no weights, optimizer state or tracker value carries over. -/
theorem claim_C9_fold_independence {M O D : Type} (pretrained : M)
    (freshOpt : M → O) (trainOutcomes : M → O → D → List EvalMetrics)
    (foldEnd : M → O → D → LoopState M O) (folds : List D)
    (s s1 s2 : LoopState M O) :
    runKFoldFrom pretrained freshOpt trainOutcomes foldEnd s folds
      = folds.map (fun d => (foldBody pretrained freshOpt trainOutcomes foldEnd s1 d).1) ∧
    (∀ d, foldBody pretrained freshOpt trainOutcomes foldEnd s1 d
        = foldBody pretrained freshOpt trainOutcomes foldEnd s2 d) := by
  constructor
  · induction folds generalizing s with
    | nil => rfl
    | cons d ds ih =>
      simp only [runKFoldFrom, List.map_cons, ih]
      rfl
  · intro d
    rfl

/-! ### Ensemble inference
Embeds `inference_kfold.py`: the per-fold batched inference loop
(`inference`, lines 16-44) and the accumulate / average / softmax / argmax
pipeline of `main` (lines 102-124). -/

/-- A row of logits or probabilities over the 30 relation classes. -/
abbrev Vec30 := Fin 30 → ℝ

/-- Consecutive batches of size `b` in dataset order: the batching of
`DataLoader(..., batch_size=b, shuffle=False)` (line 21). -/
def toBatches {α : Type} (b : ℕ) : List α → List (List α)
  | [] => []
  | x :: xs =>
    if b = 0 then []
    else (x :: xs).take b :: toBatches b ((x :: xs).drop b)
termination_by l => l.length
decreasing_by
  rename_i h
  simp only [List.length_drop, List.length_cons]
  omega

theorem toBatches_flatten_of_le {α : Type} (b : ℕ) (hb : 0 < b) :
    ∀ (n : ℕ) (xs : List α), xs.length ≤ n → (toBatches b xs).flatten = xs := by
  intro n
  induction n with
  | zero =>
    intro xs h
    have hx : xs = [] := List.length_eq_zero.mp (Nat.le_zero.mp h)
    subst hx
    simp [toBatches]
  | succ m ih =>
    intro xs h
    cases xs with
    | nil => simp [toBatches]
    | cons x tl =>
      rw [toBatches, if_neg (Nat.pos_iff_ne_zero.mp hb), List.flatten_cons]
      rw [ih ((x :: tl).drop b) ?bound]
      · exact List.take_append_drop b (x :: tl)
      case bound =>
        simp only [List.length_drop, List.length_cons] at h ⊢
        omega

theorem toBatches_flatten {α : Type} (b : ℕ) (hb : 0 < b) (xs : List α) :
    (toBatches b xs).flatten = xs :=
  toBatches_flatten_of_le b hb xs.length xs le_rfl

/-- The per-fold inference loop (`inference`, lines 16-44): the test set is
batched without shuffling, every batch is run through the model with
gradients disabled, and the per-batch logits are concatenated
(`torch.cat`, line 43) in iteration order.  The forward pass is a
per-example logit function `m` applied across the batch; this also stands
for the collator, which — modelled from the spec's Batch Collator
contract — pads but never drops or reorders a batch's examples. -/
def inferenceLogits {Ex : Type} (m : Ex → Vec30) (b : ℕ) (xs : List Ex) :
    List Vec30 :=
  ((toBatches b xs).map (fun batch => batch.map m)).flatten

theorem inferenceLogits_eq_map {Ex : Type} (m : Ex → Vec30) (b : ℕ)
    (xs : List Ex) (hb : 0 < b) : inferenceLogits m b xs = xs.map m := by
  unfold inferenceLogits
  rw [show (fun batch => List.map m batch) = List.map m from rfl]
  rw [← List.map_flatten, toBatches_flatten b hb]

/-- The logit accumulator of `main` (line 102): `torch.zeros([7765, 30])` —
a hard-coded row count, not derived from the loaded test dataset. -/
def probsInit : List Vec30 := List.replicate 7765 (fun _ => 0)

/-- Elementwise matrix addition, the shape-respecting core of
`probs += prob_answer` (line 117). -/
def pureAdd (acc l : List Vec30) : List Vec30 :=
  List.zipWith (fun r1 r2 c => r1 c + r2 c) acc l

/-- The in-place accumulation `probs += prob_answer` (line 117): defined
exactly when the fold's logit matrix has the accumulator's row count,
failing otherwise (a shape-mismatch error). -/
def tensorAdd (acc l : List Vec30) : Option (List Vec30) :=
  if l.length = acc.length then some (pureAdd acc l) else none

/-- The fold loop of `main` (lines 103-117): accumulate each fold's logits
over `kfold_splits` folds into the zero-initialized accumulator. -/
def ensembleLogitSum (k : ℕ) (foldLogits : ℕ → List Vec30) :
    Option (List Vec30) :=
  ((List.range k).map foldLogits).foldlM tensorAdd probsInit

/-- Softmax over the 30 classes, `F.softmax(probs, dim=-1)` (line 120). -/
noncomputable def softmax (v : Vec30) : Vec30 :=
  fun i => Real.exp (v i) / ∑ j, Real.exp (v j)

/-- First index attaining the maximum of `v`: `np.argmax(probs, axis=-1)`
(line 121) per output row. -/
noncomputable def argmaxIdx (v : Vec30) : Fin 30 := by
  classical
  refine (Finset.univ.filter (fun i => ∀ j, v j ≤ v i)).min' ?_
  obtain ⟨b, _, hb⟩ := Finset.exists_max_image (Finset.univ : Finset (Fin 30)) v
    ⟨0, Finset.mem_univ 0⟩
  exact ⟨b, Finset.mem_filter.mpr ⟨Finset.mem_univ b, fun j => hb j (Finset.mem_univ j)⟩⟩

/-- Modelled from the spec: the persisted label map `dict_num_to_label.pkl`
read by `num_to_label` (lines 47-57) is the Label Codec — the fixed
30-label enumeration with `no_relation` at index 0, i.e. the same
enumeration `klue_re_micro_f1` hard-codes. -/
def num_to_label (i : Fin 30) : String := label_list.getD i.1 ""

/-- The tail of `main` after accumulation (lines 119-121): divide the
accumulated logits by the fold count, apply softmax once per row, and take
the per-row argmax. -/
noncomputable def ensembleProbsPreds {Ex : Type} (k b : ℕ)
    (models : ℕ → Ex → Vec30) (xs : List Ex) :
    Option (List Vec30 × List (Fin 30)) :=
  (ensembleLogitSum k (fun f => inferenceLogits (models f) b xs)).map (fun s =>
    let avg := s.map (fun r c => r c / (k : ℝ))
    let probs := avg.map softmax
    (probs, probs.map argmaxIdx))

/-- The output table of `main` (lines 124-129): predicted classes mapped
through the label codec and zipped row-wise with the test ids and the
probability vectors into `(id, predicted label, probability vector)`. -/
noncomputable def ensembleOutput {Ex : Type} (k b : ℕ) (models : ℕ → Ex → Vec30)
    (ids : List ℕ) (xs : List Ex) : Option (List (ℕ × String × Vec30)) :=
  (ensembleProbsPreds k b models xs).map (fun pp =>
    ids.zip ((pp.2.map num_to_label).zip pp.1))

/-- The row of a logit matrix at index `i` (zero row when out of range). -/
def rowAt (i : ℕ) (l : List Vec30) : Vec30 := (l.get? i).getD (fun _ => 0)

theorem softmax_sum_one (v : Vec30) : ∑ i, softmax v i = 1 := by
  unfold softmax
  rw [← Finset.sum_div]
  apply div_self
  have hpos : 0 < ∑ j, Real.exp (v j) :=
    Finset.sum_pos (fun j _ => Real.exp_pos (v j)) Finset.univ_nonempty
  exact ne_of_gt hpos

theorem list_range_sum (k : ℕ) (f : ℕ → ℝ) :
    ((List.range k).map f).sum = ∑ i ∈ Finset.range k, f i := by
  induction k with
  | zero => simp
  | succ n ih =>
    rw [Finset.sum_range_succ, List.range_succ, List.map_append, List.sum_append, ih]
    simp

theorem foldlM_tensorAdd_some (ls : List (List Vec30)) : ∀ acc : List Vec30,
    (∀ l ∈ ls, l.length = acc.length) →
    ls.foldlM tensorAdd acc = some (ls.foldl pureAdd acc) ∧
    (ls.foldl pureAdd acc).length = acc.length := by
  induction ls with
  | nil => intro acc _; exact ⟨rfl, rfl⟩
  | cons l tl ih =>
    intro acc hlen
    have hl : l.length = acc.length := hlen l (List.mem_cons_self l tl)
    have hadd : tensorAdd acc l = some (pureAdd acc l) := by
      unfold tensorAdd
      rw [if_pos hl]
    have hlen2 : (pureAdd acc l).length = acc.length := by
      unfold pureAdd
      rw [List.length_zipWith, hl, min_self]
    have htl : ∀ x ∈ tl, x.length = (pureAdd acc l).length := by
      intro x hx
      rw [hlen2]
      exact hlen x (List.mem_cons_of_mem l hx)
    obtain ⟨h1, h2⟩ := ih (pureAdd acc l) htl
    refine ⟨?_, ?_⟩
    · rw [List.foldlM_cons, hadd]
      simpa using h1
    · rw [List.foldl_cons, h2, hlen2]

theorem foldl_pureAdd_get? (ls : List (List Vec30)) : ∀ (acc : List Vec30)
    (i : ℕ) (a : Vec30),
    (∀ l ∈ ls, l.length = acc.length) → acc.get? i = some a →
    (ls.foldl pureAdd acc).get? i =
      some (fun c => a c + (ls.map (fun l => rowAt i l c)).sum) := by
  induction ls with
  | nil =>
    intro acc i a _ ha
    rw [List.foldl_nil, ha]
    congr 1
    funext c
    simp
  | cons l tl ih =>
    intro acc i a hlen ha
    have hl : l.length = acc.length := hlen l (List.mem_cons_self l tl)
    have hi : i < acc.length := (List.get?_eq_some.mp ha).1
    have hil : i < l.length := hl ▸ hi
    have hrow : l.get? i = some (rowAt i l) := by
      unfold rowAt
      rw [List.get?_eq_get hil]
      rfl
    have hacc : (pureAdd acc l).get? i = some (fun c => a c + rowAt i l c) := by
      unfold pureAdd
      rw [List.get?_zipWith', ha, hrow]
      rfl
    have hlen2 : (pureAdd acc l).length = acc.length := by
      unfold pureAdd
      rw [List.length_zipWith, hl, min_self]
    have htl : ∀ x ∈ tl, x.length = (pureAdd acc l).length := by
      intro x hx
      rw [hlen2]
      exact hlen x (List.mem_cons_of_mem l hx)
    rw [List.foldl_cons, ih (pureAdd acc l) i (fun c => a c + rowAt i l c) htl hacc]
    congr 1
    funext c
    rw [List.map_cons, List.sum_cons]
    ring

theorem probsInit_get? (i : ℕ) (hi : i < 7765) :
    probsInit.get? i = some (fun _ => 0) := by
  unfold probsInit
  rw [List.get?_eq_get (by rw [List.length_replicate]; exact hi)]
  congr 1
  exact List.get_replicate _ _

theorem ensembleLogitSum_models {Ex : Type} (k b : ℕ) (models : ℕ → Ex → Vec30)
    (xs : List Ex) (hb : 0 < b) (hx : xs.length = 7765) :
    ∃ S : List Vec30,
      ensembleLogitSum k (fun f => inferenceLogits (models f) b xs) = some S ∧
      S.length = 7765 ∧
      ∀ (i : ℕ) (e : Ex), xs.get? i = some e →
        S.get? i = some (fun c => ∑ f ∈ Finset.range k, models f e c) := by
  have hinf : (fun f => inferenceLogits (models f) b xs)
      = fun f => xs.map (models f) :=
    funext fun f => inferenceLogits_eq_map (models f) b xs hb
  have hlens : ∀ l ∈ (List.range k).map (fun f => xs.map (models f)),
      l.length = probsInit.length := by
    intro l hl
    obtain ⟨f, _, rfl⟩ := List.mem_map.mp hl
    rw [List.length_map, hx]
    unfold probsInit
    rw [List.length_replicate]
  obtain ⟨hsome, hlen⟩ := foldlM_tensorAdd_some _ probsInit hlens
  refine ⟨((List.range k).map (fun f => xs.map (models f))).foldl pureAdd probsInit,
    ?_, ?_, ?_⟩
  · unfold ensembleLogitSum
    rw [hinf]
    exact hsome
  · rw [hlen]
    unfold probsInit
    rw [List.length_replicate]
  · intro i e he
    have hi : i < xs.length := by
      obtain ⟨h, _⟩ := List.get?_eq_some.mp he
      exact h
    have hi7 : i < 7765 := hx ▸ hi
    rw [foldl_pureAdd_get? _ probsInit i (fun _ => 0) hlens (probsInit_get? i hi7)]
    congr 1
    funext c
    rw [List.map_map]
    have hfun : ((fun l => rowAt i l c) ∘ fun f => xs.map (models f))
        = fun f => models f e c := by
      funext f
      simp only [Function.comp]
      unfold rowAt
      rw [List.get?_map, he]
      rfl
    rw [hfun, list_range_sum]
    simp

theorem ensembleProbsPreds_some {Ex : Type} (k b : ℕ) (models : ℕ → Ex → Vec30)
    (xs : List Ex) (hb : 0 < b) (hx : xs.length = 7765) :
    ∃ probs preds, ensembleProbsPreds k b models xs = some (probs, preds) ∧
      probs.length = 7765 ∧ preds.length = 7765 ∧
      (∀ (i : ℕ) (e : Ex), xs.get? i = some e →
        probs.get? i = some (softmax (fun c =>
          (∑ f ∈ Finset.range k, models f e c) / (k : ℝ))) ∧
        preds.get? i = some (argmaxIdx (softmax (fun c =>
          (∑ f ∈ Finset.range k, models f e c) / (k : ℝ))))) ∧
      (∀ p ∈ probs, ∃ v, p = softmax v) := by
  obtain ⟨S, hS, hSlen, hSget⟩ := ensembleLogitSum_models k b models xs hb hx
  refine ⟨(S.map (fun r c => r c / (k : ℝ))).map softmax,
    ((S.map (fun r c => r c / (k : ℝ))).map softmax).map argmaxIdx,
    ?_, ?_, ?_, ?_, ?_⟩
  · unfold ensembleProbsPreds
    rw [hS]
    rfl
  · rw [List.length_map, List.length_map, hSlen]
  · rw [List.length_map, List.length_map, List.length_map, hSlen]
  · intro i e he
    have h1 := hSget i e he
    constructor
    · rw [List.get?_map, List.get?_map, h1]
      rfl
    · rw [List.get?_map, List.get?_map, List.get?_map, h1]
      rfl
  · intro p hp
    obtain ⟨v, _, rfl⟩ := List.mem_map.mp hp
    exact ⟨v, rfl⟩

/-- C2: for every test example, the ensemble's final probability vector is
softmax applied once to the arithmetic mean over the k folds' raw logits
for that example (summed logits divided by the fold count — not an average
of per-fold softmaxes), the predicted class is the argmax of that vector,
and every emitted probability vector's components sum to 1. -/
theorem claim_C2_softmax_of_mean {Ex : Type} (k b : ℕ)
    (models : ℕ → Ex → Vec30) (xs : List Ex) (hb : 0 < b)
    (hx : xs.length = 7765) :
    ∃ probs preds, ensembleProbsPreds k b models xs = some (probs, preds) ∧
      (∀ (i : ℕ) (e : Ex), xs.get? i = some e →
        probs.get? i = some (softmax (fun c =>
          (∑ f ∈ Finset.range k, models f e c) / (k : ℝ))) ∧
        preds.get? i = some (argmaxIdx (softmax (fun c =>
          (∑ f ∈ Finset.range k, models f e c) / (k : ℝ))))) ∧
      (∀ p ∈ probs, ∑ c, p c = 1) := by
  obtain ⟨probs, preds, hmain, _, _, hget, hmem⟩ :=
    ensembleProbsPreds_some k b models xs hb hx
  refine ⟨probs, preds, hmain, hget, ?_⟩
  intro p hp
  obtain ⟨v, rfl⟩ := hmem p hp
  exact softmax_sum_one v

/-- Concrete inference inputs for closed witness instances: a constant-zero
model over a unit example type, a test set of exactly 7765 rows, and one id
per row. -/
def wModels : ℕ → Unit → Vec30 := fun _ _ _ => 0

/-- The 7765-row test set used by the closed witness instances. -/
def wXs : List Unit := List.replicate 7765 ()

/-- The id column used by the closed witness instances. -/
def wIds : List ℕ := List.replicate 7765 0

/-- Closed instance of the C2 theorem: one fold, batch size one, the
constant-zero model on the 7765-row test set. -/
theorem claim_C2_softmax_of_mean_witness :
    0 < 1 ∧ wXs.length = 7765 ∧
    (∃ probs preds, ensembleProbsPreds 1 1 wModels wXs = some (probs, preds) ∧
      (∀ (i : ℕ) (e : Unit), wXs.get? i = some e →
        probs.get? i = some (softmax (fun c =>
          (∑ f ∈ Finset.range 1, wModels f e c) / ((1 : ℕ) : ℝ))) ∧
        preds.get? i = some (argmaxIdx (softmax (fun c =>
          (∑ f ∈ Finset.range 1, wModels f e c) / ((1 : ℕ) : ℝ))))) ∧
      (∀ p ∈ probs, ∑ c, p c = 1)) :=
  ⟨Nat.one_pos, by rw [wXs, List.length_replicate],
    claim_C2_softmax_of_mean 1 1 wModels wXs Nat.one_pos
      (by rw [wXs, List.length_replicate])⟩

/-- C3: the ensemble inference runner allocates its logit accumulator with
the hard-coded row count 7765 not derived from the loaded test set, and the
per-fold accumulation over a positive number of folds whose logit matrices
all have the test set's row count succeeds exactly when that row count is
7765 — it fails for every other size. -/
theorem claim_C3_hardcoded_rows (k : ℕ) (foldLogits : ℕ → List Vec30)
    (n : ℕ) (hk : 0 < k) (hrows : ∀ f, (foldLogits f).length = n) :
    probsInit.length = 7765 ∧
    ((ensembleLogitSum k foldLogits).isSome ↔ n = 7765) := by
  have hPlen : probsInit.length = 7765 := by
    unfold probsInit
    rw [List.length_replicate]
  refine ⟨hPlen, ?_, ?_⟩
  · intro hsome
    by_contra hn
    obtain ⟨m, rfl⟩ := Nat.exists_eq_succ_of_ne_zero (Nat.pos_iff_ne_zero.mp hk)
    rw [ensembleLogitSum, List.range_succ_eq_map, List.map_cons,
      List.foldlM_cons] at hsome
    have hfail : tensorAdd probsInit (foldLogits 0) = none := by
      unfold tensorAdd
      rw [if_neg]
      rw [hrows 0, hPlen]
      exact hn
    rw [hfail] at hsome
    simp at hsome
  · intro hn
    subst hn
    have hlens : ∀ l ∈ (List.range k).map foldLogits, l.length = probsInit.length := by
      intro l hl
      obtain ⟨f, _, rfl⟩ := List.mem_map.mp hl
      rw [hrows f, hPlen]
    obtain ⟨hsome, _⟩ := foldlM_tensorAdd_some _ probsInit hlens
    rw [ensembleLogitSum, hsome]
    rfl

/-- One all-zero logit row, concrete input for the C3 witness. -/
def wRow : Vec30 := fun _ => 0

/-- Closed instance of the C3 theorem: with one fold producing a single
logit row, the accumulation is defined iff the test set had 7765 rows. -/
theorem claim_C3_hardcoded_rows_witness :
    0 < 1 ∧
    (probsInit.length = 7765 ∧
      ((ensembleLogitSum 1 (fun _ => [wRow])).isSome ↔ 1 = 7765)) :=
  ⟨Nat.one_pos, claim_C3_hardcoded_rows 1 (fun _ => [wRow]) 1 Nat.one_pos
    (fun _ => rfl)⟩

/-- C8: for every inference run, batches are drawn without shuffling and the
per-batch logits concatenate in iteration order to the per-example logits in
dataset order; the i-th output row carries the i-th test id, the label
decoded from the i-th example's ensemble argmax, and the i-th example's
probability vector — output row order matches test-set order. -/
theorem claim_C8_output_order {Ex : Type} (k b : ℕ) (models : ℕ → Ex → Vec30)
    (ids : List ℕ) (xs : List Ex) (hb : 0 < b) (hx : xs.length = 7765)
    (hids : ids.length = xs.length) :
    (∀ m : Ex → Vec30, inferenceLogits m b xs = xs.map m) ∧
    ∃ rows, ensembleOutput k b models ids xs = some rows ∧
      rows.length = xs.length ∧
      (∀ (i : ℕ) (e : Ex) (ident : ℕ),
        xs.get? i = some e → ids.get? i = some ident →
        rows.get? i = some (ident,
          num_to_label (argmaxIdx (softmax (fun c =>
            (∑ f ∈ Finset.range k, models f e c) / (k : ℝ)))),
          softmax (fun c =>
            (∑ f ∈ Finset.range k, models f e c) / (k : ℝ)))) := by
  obtain ⟨probs, preds, hmain, hplen, hdlen, hget, _⟩ :=
    ensembleProbsPreds_some k b models xs hb hx
  refine ⟨fun m => inferenceLogits_eq_map m b xs hb,
    ids.zip ((preds.map num_to_label).zip probs), ?_, ?_, ?_⟩
  · unfold ensembleOutput
    rw [hmain]
    rfl
  · rw [List.length_zip, List.length_zip, List.length_map, hplen, hdlen,
      hids, hx]
    omega
  · intro i e ident he hid
    obtain ⟨hpi, hdi⟩ := hget i e he
    rw [List.zip, List.get?_zipWith', hid, List.zip, List.get?_zipWith',
      List.get?_map, hdi, hpi]
    rfl

/-- Closed instance of the C8 theorem at the constant-zero model, 7765 test
rows and matching ids. -/
theorem claim_C8_output_order_witness :
    (∀ m : Unit → Vec30, inferenceLogits m 1 wXs = wXs.map m) ∧
    ∃ rows, ensembleOutput 1 1 wModels wIds wXs = some rows ∧
      rows.length = wXs.length ∧
      (∀ (i : ℕ) (e : Unit) (ident : ℕ),
        wXs.get? i = some e → wIds.get? i = some ident →
        rows.get? i = some (ident,
          num_to_label (argmaxIdx (softmax (fun c =>
            (∑ f ∈ Finset.range 1, wModels f e c) / ((1 : ℕ) : ℝ)))),
          softmax (fun c =>
            (∑ f ∈ Finset.range 1, wModels f e c) / ((1 : ℕ) : ℝ)))) :=
  claim_C8_output_order 1 1 wModels wIds wXs Nat.one_pos
    (by rw [wXs, List.length_replicate])
    (by rw [wIds, wXs, List.length_replicate, List.length_replicate])

end KlueRE
